import Mathlib

/-!
Verification of the NinyMark client-side session controller against its
specification.  The JavaScript modules `settings.js` (ConfigHistory),
`upload.js` (ImageStore), `preview.js` (PlacementController) and `app.js`
(BatchPipeline / processAll) are shallowly embedded as pure Lean functions:
mutable module state becomes explicit state records, timers become an
explicit `pending` field plus a `fire` step, and asynchronous remote calls
become an outcome supplied with each input.
-/

namespace NinyMark

/-- JavaScript `Math.round` on exact rationals: round half toward plus infinity. -/
def jsRound (x : ℚ) : ℤ := ⌊x + 1/2⌋

/-- The `Math.max(lo, Math.min(x, hi))` clamping idiom used throughout the code. -/
def clampQ (lo hi x : ℚ) : ℚ := max lo (min x hi)

/-! ## ConfigHistory — `settings.js`

The configuration snapshot object, its defaults, the partial-update merge
(`Object.assign`), and the undo/redo stack discipline.  JS arrays push/pop
at the end and `shift` the front; we represent a stack as a list whose head
is the newest entry, so `push` is cons and `shift` is `dropLast`. -/

/-- A configuration snapshot (`DEFAULT_SETTINGS` shape in `settings.js`). -/
structure Config where
  style : String
  opacity : ℚ
  size : String
  padding : ℚ
  color : String
  custom_text : String
  custom_size_pct : Option ℚ
  manual_x : Option ℚ
  manual_y : Option ℚ
  font_path : Option String
deriving DecidableEq

/-- `DEFAULT_SETTINGS` from `settings.js`. -/
def DEFAULT_SETTINGS : Config :=
  { style := "branded_block"
    opacity := 3/4
    size := "M"
    padding := 20
    color := "light"
    custom_text := "patreon.com/Ninyra"
    custom_size_pct := none
    manual_x := none
    manual_y := none
    font_path := none }

/-- A partial settings object passed to `update(partial)`: each field may be
absent.  For nullable fields, `some none` models an explicitly-null value. -/
structure ConfigPatch where
  style : Option String := none
  opacity : Option ℚ := none
  size : Option String := none
  padding : Option ℚ := none
  color : Option String := none
  custom_text : Option String := none
  custom_size_pct : Option (Option ℚ) := none
  manual_x : Option (Option ℚ) := none
  manual_y : Option (Option ℚ) := none
  font_path : Option (Option String) := none
deriving DecidableEq

/-- `Object.assign(current, partial)`: present fields of the patch win. -/
def applyPatch (c : Config) (p : ConfigPatch) : Config :=
  { style := p.style.getD c.style
    opacity := p.opacity.getD c.opacity
    size := p.size.getD c.size
    padding := p.padding.getD c.padding
    color := p.color.getD c.color
    custom_text := p.custom_text.getD c.custom_text
    custom_size_pct := p.custom_size_pct.getD c.custom_size_pct
    manual_x := p.manual_x.getD c.manual_x
    manual_y := p.manual_y.getD c.manual_y
    font_path := p.font_path.getD c.font_path }

/-- `MAX_STACK_SIZE` from `settings.js`. -/
def MAX_STACK_SIZE : ℕ := 50

/-- The `stack.push(x); if (stack.length > MAX_STACK_SIZE) stack.shift();`
idiom.  Head of the list is the newest entry, so the JS `shift` that drops
the oldest entry is `dropLast`. -/
def pushBounded (x : Config) (l : List Config) : List Config :=
  let l' := x :: l
  if MAX_STACK_SIZE < l'.length then l'.dropLast else l'

/-- The mutable module state of `settings.js`.  `pending` models the armed
debounce timer together with the `prevState` snapshot it captured; `none`
means no timer is armed. -/
structure HistoryState where
  current : Config
  undoStack : List Config
  redoStack : List Config
  pending : Option Config
  isRestoring : Bool
deriving DecidableEq

/-- The externally triggered steps of `settings.js`: an `update(partial)`
call, the debounce timer firing (`fire`), `undo()` and `redo()`. -/
inductive HistOp where
  | update (p : ConfigPatch)
  | fire
  | undo
  | redo
deriving DecidableEq

/-- One step of the `settings.js` state machine.

`update`: captures `prev`, merges the patch into `current`, and (unless
restoring) re-arms the debounce timer with this call's `prev`
(`_debouncedPush` clears any previous timer first, so `pending` is
overwritten).

`fire`: the debounce callback — pushes the captured snapshot onto the undo
stack (bounded), clears the redo stack.

`undo`/`redo`: no-ops on an empty stack; otherwise move `current` across,
bounded-pushing the other stack; both end with `isRestoring = false`. -/
def applyOp (s : HistoryState) : HistOp → HistoryState
  | .update p =>
    let prev := s.current
    { s with
      current := applyPatch s.current p
      pending := if s.isRestoring then s.pending else some prev }
  | .fire =>
    match s.pending with
    | none => s
    | some prev =>
      { s with
        undoStack := pushBounded prev s.undoStack
        redoStack := []
        pending := none }
  | .undo =>
    match s.undoStack with
    | [] => s
    | top :: rest =>
      { s with
        current := top
        undoStack := rest
        redoStack := pushBounded s.current s.redoStack
        isRestoring := false }
  | .redo =>
    match s.redoStack with
    | [] => s
    | top :: rest =>
      { s with
        current := top
        redoStack := rest
        undoStack := pushBounded s.current s.undoStack
        isRestoring := false }

/-- Run a list of steps. -/
def applyOps (s : HistoryState) (ops : List HistOp) : HistoryState :=
  ops.foldl applyOp s

/-- A burst of `update` calls all landing inside one debounce window (no
`fire` in between). -/
def applyUpdates (s : HistoryState) (ps : List ConfigPatch) : HistoryState :=
  ps.foldl (fun st p => applyOp st (.update p)) s

/-- The initial module state of `settings.js` (empty stacks, defaults). -/
def initHistory : HistoryState :=
  { current := DEFAULT_SETTINGS
    undoStack := []
    redoStack := []
    pending := none
    isRestoring := false }

/-! ## ImageStore — `upload.js`

The uploaded-image list, the extension allow-list, the 100-file hard cap,
the face-detection cache (a JS `Map` modelled as an association list), and
the revocable preview handles (modelled as numeric handles recorded in a
`revoked` log when `URL.revokeObjectURL` is called). -/

/-- `VALID_EXTENSIONS` from `upload.js`. -/
def VALID_EXTENSIONS : List String := [".png", ".jpg", ".jpeg", ".webp"]

/-- `MAX_FILES` from `upload.js`. -/
def MAX_FILES : ℕ := 100

/-- An incoming file: its name and whether `_fileToBase64` succeeds on it. -/
structure UFile where
  name : String
  decodeOk : Bool
deriving DecidableEq

/-- A stored image record (`{id, file, name, preview, base64}`); the binary
payload is irrelevant to the claims and elided, `preview` is the numeric
object-URL handle. -/
structure ImageRec where
  id : ℕ
  name : String
  preview : ℕ
deriving DecidableEq

/-- A cached face-detection result (`{faces, exclusionZones}`). -/
structure FaceData where
  faces : List (ℚ × ℚ × ℚ × ℚ)
  exclusionZones : List (ℚ × ℚ × ℚ × ℚ)
deriving DecidableEq

/-- The mutable module state of `upload.js`.  `revoked` logs every preview
handle passed to `URL.revokeObjectURL`; `toasts` logs every error notice
shown via `ui.showToast`; `nextId` generates fresh ids and handles. -/
structure UploadState where
  images : List ImageRec
  faceCache : List (ℕ × FaceData)
  revoked : List ℕ
  toasts : List String
  nextId : ℕ
deriving DecidableEq

/-- The JS `string.split('.')` on a character list: split at every dot,
keeping empty segments, never returning an empty list. -/
def splitDot : List Char → List (List Char)
  | [] => [[]]
  | c :: cs =>
    match splitDot cs with
    | [] => [[]]
    | w :: ws => if c = '.' then [] :: w :: ws else (c :: w) :: ws

/-- The extension test from `addFiles`:
`'.' + file.name.split('.').pop().toLowerCase()`. -/
def extOf (name : String) : String :=
  "." ++ String.mk (((splitDot name.toList).getLastD []).map Char.toLower)

/-- Membership of the computed extension in the allow-list. -/
def validExt (name : String) : Bool := VALID_EXTENSIONS.contains (extOf name)

/-- The per-file unsupported-format notice. -/
def unsupportedMsg (n : String) : String :=
  "Unsupported format: " ++ n ++ ". Use PNG, JPG, or WEBP."

/-- The single aggregate cap notice. -/
def capMsg : String := "Maximum 100 files allowed per batch."

/-- The per-file decode-failure notice. -/
def readFailMsg (n : String) : String := "Failed to read file: " ++ n

/-- The `for (const file of fileArray)` loop body of `addFiles`: invalid
extension → per-file notice, `continue`; list already at the cap → one
aggregate notice, `break`; decode failure → per-file notice, `continue`;
otherwise push a fresh record. -/
def addFilesGo : UploadState → List UFile → UploadState
  | s, [] => s
  | s, f :: rest =>
    if ¬ validExt f.name then
      addFilesGo { s with toasts := s.toasts ++ [unsupportedMsg f.name] } rest
    else if MAX_FILES ≤ s.images.length then
      { s with toasts := s.toasts ++ [capMsg] }
    else if f.decodeOk then
      addFilesGo
        { s with
          images := s.images ++ [⟨s.nextId, f.name, s.nextId⟩]
          nextId := s.nextId + 1 } rest
    else
      addFilesGo { s with toasts := s.toasts ++ [readFailMsg f.name] } rest

/-- `addFiles(files)` from `upload.js` (the rendering and change
notification at the end carry no store state). -/
def addFiles (s : UploadState) (files : List UFile) : UploadState :=
  addFilesGo s files

/-- `removeImage(id)` from `upload.js`: find the record by id; if present,
revoke its preview handle, splice it out, and delete its face-cache entry;
otherwise leave the store untouched. -/
def removeImage (s : UploadState) (id : ℕ) : UploadState :=
  match s.images.findIdx? (fun r => r.id == id) with
  | none => s
  | some idx =>
    { s with
      images := s.images.eraseIdx idx
      faceCache := s.faceCache.filter (fun e => e.1 != id)
      revoked := s.revoked ++ ((s.images.get? idx).map (fun r => r.preview)).toList }

/-- `getCachedFaces(imageId)`: `faceCache.get(imageId) || null`. -/
def getCachedFaces (s : UploadState) (id : ℕ) : Option FaceData :=
  (s.faceCache.find? (fun e => e.1 == id)).map (fun e => e.2)

/-- `cacheFaces(imageId, data)`: `Map.set` — replace in place or append. -/
def cacheFaces (s : UploadState) (id : ℕ) (d : FaceData) : UploadState :=
  { s with
    faceCache :=
      if s.faceCache.any (fun e => e.1 == id) then
        s.faceCache.map (fun e => if e.1 == id then (id, d) else e)
      else s.faceCache ++ [(id, d)] }

/-- `clearAll()` from `upload.js`. -/
def clearAll (s : UploadState) : UploadState :=
  { s with
    images := []
    faceCache := []
    revoked := s.revoked ++ s.images.map (fun r => r.preview) }

/-- The empty store. -/
def initUpload : UploadState :=
  { images := [], faceCache := [], revoked := [], toasts := [], nextId := 0 }

/-! ## PlacementController — `preview.js`

The drag-and-drop watermark repositioning.  A drag session captures the
handle's start offset at `mousedown`; every `mousemove` recomputes the
handle position from that start offset plus the pointer delta (clamped to
the overlay, optionally snapped to a 10% grid) and emits no position-change
notification; `mouseup` emits exactly one notification built from the
handle's final offset normalized by the overlay size and clamped to
`[0,1]`.  The emissions produced by each handler are returned explicitly as
a list of `(x, y)` pairs passed to `onPositionChange`. -/

/-- The overlay rectangle and the draggable handle's size, in pixels. -/
structure Surface where
  width : ℚ
  height : ℚ
  handleW : ℚ
  handleH : ℚ
deriving DecidableEq

/-- The `onMouseMove` handler: new handle position from the session-start
offset plus the pointer delta, clamped to the overlay, snapped to tenths of
the overlay size when snap-to-grid is on.  Returns the new handle position
and the (empty) list of position-change notifications it emits. -/
def onMouseMove (sf : Surface) (snap : Bool) (handleStart delta : ℚ × ℚ) :
    (ℚ × ℚ) × List (ℚ × ℚ) :=
  let newLeft := clampQ 0 (sf.width - sf.handleW) (handleStart.1 + delta.1)
  let newTop := clampQ 0 (sf.height - sf.handleH) (handleStart.2 + delta.2)
  let pos :=
    if snap then
      (((jsRound (newLeft / (sf.width / 10)) : ℚ)) * (sf.width / 10),
       ((jsRound (newTop / (sf.height / 10)) : ℚ)) * (sf.height / 10))
    else (newLeft, newTop)
  (pos, [])

/-- The `onMouseUp` handler: normalize the handle's final offset by the
overlay size, clamp each coordinate to `[0,1]`, and emit the single
position-change notification. -/
def onMouseUp (sf : Surface) (handlePos : ℚ × ℚ) : List (ℚ × ℚ) :=
  [(clampQ 0 1 (handlePos.1 / sf.width), clampQ 0 1 (handlePos.2 / sf.height))]

/-- The `mousemove` phase of a drag session: fold the moves, tracking the
handle position and collecting every notification the move handlers emit. -/
def movePhase (sf : Surface) (snap : Bool) (handleStart : ℚ × ℚ)
    (moves : List (ℚ × ℚ)) : (ℚ × ℚ) × List (ℚ × ℚ) :=
  moves.foldl
    (fun acc d =>
      let st := onMouseMove sf snap handleStart d
      (st.1, acc.2 ++ st.2))
    (handleStart, [])

/-- A whole drag session: `mousedown` on the handle (ignored when drag mode
is disabled), the moves, then `mouseup`.  Returns the final handle position
and every position-change notification emitted during the session. -/
def dragSession (sf : Surface) (dragEnabled snap : Bool) (handleStart : ℚ × ℚ)
    (moves : List (ℚ × ℚ)) : (ℚ × ℚ) × List (ℚ × ℚ) :=
  if !dragEnabled then (handleStart, [])
  else
    let m := movePhase sf snap handleStart moves
    (m.1, m.2 ++ onMouseUp sf m.1)

/-- The overlay click handler (click-to-place): ignored when drag mode is
off or a drag is in progress; otherwise normalize the click point, snap the
normalized coordinates to tenths when snap-to-grid is on, clamp to `[0,1]`
and emit one notification.  `click` is the point relative to the overlay. -/
def overlayClick (sf : Surface) (snap dragEnabled isDragging : Bool)
    (click : ℚ × ℚ) : List (ℚ × ℚ) :=
  if !dragEnabled || isDragging then []
  else
    let nx0 := click.1 / sf.width
    let ny0 := click.2 / sf.height
    let nx1 := if snap then ((jsRound (nx0 * 10) : ℚ)) / 10 else nx0
    let ny1 := if snap then ((jsRound (ny0 * 10) : ℚ)) / 10 else ny0
    [(clampQ 0 1 nx1, clampQ 0 1 ny1)]

/-! ## BatchPipeline — `processAll` in `app.js`

Images are processed in chunks of `BATCH_SIZE = 4`
(`images.slice(batchStart, batchStart + BATCH_SIZE)` inside a for loop
stepping by `BATCH_SIZE`).  Each image's remote call resolves to an
`Outcome`: a `success` envelope, an envelope with `success: false` (the
mapped promise then resolves to `null`), or a rejected promise
(`api.preview` throws on network failure and non-2xx responses).  A single
rejection makes the chunk's `Promise.all` reject, which aborts the whole
run through the surrounding try/catch — the accumulated `results` are never
surfaced.  Otherwise the settled chunk is zipped back in input order:
non-null results are appended, `completed` advances for every image, and
`Math.min(100, Math.round((completed / total) * 100))` is reported. -/

/-- The settled outcome of one image's `api.preview` call. -/
inductive Outcome where
  | success (result zoneUsed : String) (zoneScore : ℚ)
  | apiFail
  | transportErr (msg : String)
deriving DecidableEq

/-- Whether the promise for this image rejected. -/
def Outcome.isTransportErr : Outcome → Bool
  | .transportErr _ => true
  | _ => false

/-- The error message carried by a rejected promise. -/
def Outcome.errMsg : Outcome → String
  | .transportErr m => m
  | _ => ""

/-- One entry of the `results` array built by `processAll`. -/
structure ProcessedResult where
  id : ℕ
  name : String
  resultBase64 : String
  zoneUsed : String
  zoneScore : ℚ
deriving DecidableEq

/-- `BATCH_SIZE` from `processAll` in `app.js`. -/
def BATCH_SIZE : ℕ := 4

/-- One image paired with the outcome its remote call settles to. -/
abbrev BatchInput := ImageRec × Outcome

/-- The value a chunk's mapped promise resolves to: a result object on
`success`, `null` (here `none`) on an explicit failure envelope. -/
def resultOf (inp : BatchInput) : Option ProcessedResult :=
  match inp.2 with
  | .success r z sc => some ⟨inp.1.id, inp.1.name, r, z, sc⟩
  | _ => none

/-- The reported progress value after `k` of `total` images have settled:
`Math.min(100, Math.round((completed / images.length) * 100))`. -/
def pct (total k : ℕ) : ℤ := min 100 (jsRound ((k : ℚ) * 100 / (total : ℚ)))

/-- The chunk decomposition of the `for (let batchStart = 0; batchStart <
images.length; batchStart += BATCH_SIZE)` loop: slice `i .. i + 4` at every
multiple of four below the length. -/
def chunksOf4 (l : List α) : List (List α) :=
  (List.range ((l.length + 3) / 4)).map (fun i => (l.drop (i * 4)).take 4)

/-- The number of chunk iterations `processAll` performs. -/
def numChunks (l : List α) : ℕ := (chunksOf4 l).length

/-- The zip-back loop over one settled chunk (`for (const r of
batchResults)`): accumulate non-null results in order, advance `completed`
for every image, and record the reported progress value. -/
def chunkSettle (total : ℕ) (acc : List ProcessedResult × ℕ × List ℤ)
    (chunk : List BatchInput) : List ProcessedResult × ℕ × List ℤ :=
  chunk.foldl
    (fun a inp =>
      let comp := a.2.1 + 1
      let p := pct total comp
      match resultOf inp with
      | some r => (a.1 ++ [r], comp, a.2.2 ++ [p])
      | none => (a.1, comp, a.2.2 ++ [p]))
    acc

/-- Drive the chunks in order.  If any promise of the current chunk
rejects, `Promise.all` rejects and the run aborts with that error: no
result list is surfaced and no further progress is reported.  Otherwise the
settled chunk is folded in and the next chunk starts. -/
def processChunksGo (total : ℕ) (acc : List ProcessedResult × ℕ × List ℤ) :
    List (List BatchInput) → Except String (List ProcessedResult) × List ℤ
  | [] => (.ok acc.1, acc.2.2)
  | c :: cs =>
    match c.find? (fun i => i.2.isTransportErr) with
    | some i => (.error i.2.errMsg, acc.2.2)
    | none => processChunksGo total (chunkSettle total acc c) cs

/-- `processAll` from `app.js`, as a function of the image list and the
outcome each image's remote call settles to: the surfaced result list (or
the abort error) together with the sequence of reported progress values. -/
def processAll (inputs : List BatchInput) :
    Except String (List ProcessedResult) × List ℤ :=
  processChunksGo inputs.length ([], 0, []) (chunksOf4 inputs)

/-! ## Lemmas about the bounded stacks and the debounce window -/

/-- `pushBounded` always conses the new entry on top; when the stack is
already at capacity it additionally drops the oldest entry. -/
theorem pushBounded_eq_cons (x : Config) (l : List Config) :
    pushBounded x l
      = x :: (if MAX_STACK_SIZE ≤ l.length then l.dropLast else l) := by
  unfold pushBounded MAX_STACK_SIZE
  simp only [List.length_cons]
  by_cases h : 50 ≤ l.length
  · rw [if_pos (by omega), if_pos h]
    cases l with
    | nil => simp at h
    | cons a as => rfl
  · rw [if_neg (by omega), if_neg h]

/-- Bounded pushes keep the stack within the capacity. -/
theorem pushBounded_length_le (x : Config) (l : List Config)
    (h : l.length ≤ MAX_STACK_SIZE) :
    (pushBounded x l).length ≤ MAX_STACK_SIZE := by
  rw [pushBounded_eq_cons]
  by_cases h50 : MAX_STACK_SIZE ≤ l.length
  · rw [if_pos h50]
    simp only [List.length_cons, List.length_dropLast]
    unfold MAX_STACK_SIZE at *
    omega
  · rw [if_neg h50]
    simp only [List.length_cons]
    unfold MAX_STACK_SIZE at *
    omega

/-- A burst of `update` calls never touches the restoring flag. -/
theorem applyUpdates_isRestoring (ps : List ConfigPatch) (s : HistoryState) :
    (applyUpdates s ps).isRestoring = s.isRestoring := by
  induction ps generalizing s with
  | nil => rfl
  | cons p ps ih =>
    show (applyUpdates (applyOp s (.update p)) ps).isRestoring = _
    rw [ih]
    rfl

/-- A burst of `update` calls never touches the undo stack. -/
theorem applyUpdates_undoStack (ps : List ConfigPatch) (s : HistoryState) :
    (applyUpdates s ps).undoStack = s.undoStack := by
  induction ps generalizing s with
  | nil => rfl
  | cons p ps ih =>
    show (applyUpdates (applyOp s (.update p)) ps).undoStack = _
    rw [ih]
    rfl

/-- After a non-empty burst of `update` calls outside restoring mode, the
armed debounce timer holds the snapshot captured by the *last* call of the
burst, i.e. the configuration as it stood after all but the last update. -/
theorem applyUpdates_pending (s : HistoryState) (ps : List ConfigPatch)
    (hs : s.isRestoring = false) (hps : ps ≠ []) :
    (applyUpdates s ps).pending
      = some ((applyUpdates s ps.dropLast).current) := by
  induction ps using List.reverseRecOn with
  | nil => exact absurd rfl hps
  | append_singleton qs p _ =>
    have hfold : applyUpdates s (qs ++ [p])
        = applyOp (applyUpdates s qs) (.update p) := by
      simp [applyUpdates, List.foldl_append]
    rw [hfold, List.dropLast_concat]
    simp [applyOp, applyUpdates_isRestoring, hs]

/-! ## Claim C1 — debounced commit captures the wrong snapshot

The spec asserts that the single undo entry created when the debounce timer
fires equals the snapshot before the *first* `update` of the burst.  In the
code, every `update` re-arms the timer with *its own* `prev` snapshot, so
the committed entry is the snapshot before the *last* update of the burst.
-/

/-- A patch setting only the style. -/
def patchA : ConfigPatch := { style := some "classic" }

/-- A patch setting only the color. -/
def patchB : ConfigPatch := { color := some "dark" }

/-- C1 counterexample: two `update` calls inside one debounce window,
committed by the timer.  Exactly one undo entry is created, but it is not
the snapshot that was current before the first call (`initHistory.current`,
i.e. the defaults): it is the snapshot captured before the second call. -/
theorem debounce_first_snapshot_cex :
    (applyOps initHistory [.update patchA, .update patchB, .fire]).undoStack.length = 1
    ∧ (applyOps initHistory
        [.update patchA, .update patchB, .fire]).undoStack
        ≠ [initHistory.current]
    ∧ (applyOps initHistory
        [.update patchA, .update patchB, .fire]).undoStack
        = [applyPatch initHistory.current patchA] := by
  refine ⟨rfl, ?_, rfl⟩
  intro h
  have hsty : (applyOps initHistory
      [.update patchA, .update patchB, .fire]).undoStack.map Config.style
      = ["classic"] := rfl
  rw [h] at hsty
  simp [initHistory, DEFAULT_SETTINGS] at hsty

/-- C1 amended: for every sequence of `update` calls issued within one
debounce window, exactly one undo entry is created when the timer fires,
and that entry equals the snapshot as it stood before the *last* call of
the sequence (the state after all but the last update). -/
theorem debounce_commit_amended (s : HistoryState) (ps : List ConfigPatch)
    (hs : s.isRestoring = false) (hps : ps ≠ []) :
    (applyOp (applyUpdates s ps) .fire).undoStack
      = pushBounded ((applyUpdates s ps.dropLast).current) s.undoStack
    ∧ (s.undoStack.length < MAX_STACK_SIZE →
        (applyOp (applyUpdates s ps) .fire).undoStack.length
          = s.undoStack.length + 1) := by
  have hp := applyUpdates_pending s ps hs hps
  constructor
  · simp [applyOp, hp, applyUpdates_undoStack]
  · intro hlen
    simp only [applyOp, hp, applyUpdates_undoStack]
    rw [pushBounded_eq_cons, if_neg (by omega)]
    simp

/-- Witness for the amended C1 at a concrete one-update burst. -/
theorem debounce_commit_amended_witness :
    (applyOp (applyUpdates initHistory [patchA]) .fire).undoStack
      = pushBounded ((applyUpdates initHistory ([patchA] : List ConfigPatch).dropLast).current)
          initHistory.undoStack
    ∧ (initHistory.undoStack.length < MAX_STACK_SIZE →
        (applyOp (applyUpdates initHistory [patchA]) .fire).undoStack.length
          = initHistory.undoStack.length + 1) :=
  debounce_commit_amended initHistory [patchA] rfl (by decide)

/-! ## Claim C3 — undo/redo round trip -/

/-- C3: on a non-empty undo stack, `undo()` immediately followed by
`redo()` restores `current` to exactly the snapshot that was current before
the `undo()`; `undo()` is a no-op on an empty undo stack and `redo()` is a
no-op on an empty redo stack. -/
theorem undo_redo_roundtrip :
    (∀ s : HistoryState, s.undoStack ≠ [] →
        (applyOp (applyOp s .undo) .redo).current = s.current)
    ∧ (∀ s : HistoryState, s.undoStack = [] → applyOp s .undo = s)
    ∧ (∀ s : HistoryState, s.redoStack = [] → applyOp s .redo = s) := by
  refine ⟨?_, ?_, ?_⟩
  · intro s h
    match hs : s.undoStack with
    | [] => exact absurd hs h
    | top :: rest =>
      simp only [applyOp, hs]
      rw [pushBounded_eq_cons]
  · intro s h
    simp [applyOp, h]
  · intro s h
    simp [applyOp, h]

/-- Witness for C3 at a concrete state with one undo entry. -/
theorem undo_redo_roundtrip_witness :
    (applyOp (applyOp
        { initHistory with undoStack := [applyPatch DEFAULT_SETTINGS patchA] }
        .undo) .redo).current
      = ({ initHistory with
            undoStack := [applyPatch DEFAULT_SETTINGS patchA] } : HistoryState).current :=
  undo_redo_roundtrip.1
    { initHistory with undoStack := [applyPatch DEFAULT_SETTINGS patchA] }
    (by decide)

/-! ## Claim C5 — the stacks stay within 50 entries -/

/-- C5: every `settings.js` step (update, debounced commit, undo, redo)
preserves the bound of `MAX_STACK_SIZE = 50` entries on both stacks, and a
push onto a full stack drops that stack's oldest entry. -/
theorem stacks_bounded :
    (∀ (s : HistoryState) (op : HistOp),
        s.undoStack.length ≤ MAX_STACK_SIZE →
        s.redoStack.length ≤ MAX_STACK_SIZE →
        (applyOp s op).undoStack.length ≤ MAX_STACK_SIZE
          ∧ (applyOp s op).redoStack.length ≤ MAX_STACK_SIZE)
    ∧ (∀ (x : Config) (l : List Config), l.length = MAX_STACK_SIZE →
        pushBounded x l = x :: l.dropLast) := by
  constructor
  · intro s op hu hr
    cases op with
    | update p => exact ⟨hu, hr⟩
    | fire =>
      cases hp : s.pending with
      | none =>
        have he : applyOp s .fire = s := by simp [applyOp, hp]
        rw [he]
        exact ⟨hu, hr⟩
      | some prev =>
        simp only [applyOp, hp]
        exact ⟨pushBounded_length_le _ _ hu, by simp⟩
    | undo =>
      cases hs : s.undoStack with
      | nil =>
        have he : applyOp s .undo = s := by simp [applyOp, hs]
        rw [he]
        exact ⟨hu, hr⟩
      | cons top rest =>
        simp only [applyOp, hs]
        refine ⟨?_, pushBounded_length_le _ _ hr⟩
        rw [hs] at hu
        simp only [List.length_cons] at hu
        omega
    | redo =>
      cases hs : s.redoStack with
      | nil =>
        have he : applyOp s .redo = s := by simp [applyOp, hs]
        rw [he]
        exact ⟨hu, hr⟩
      | cons top rest =>
        simp only [applyOp, hs]
        refine ⟨pushBounded_length_le _ _ hu, ?_⟩
        rw [hs] at hr
        simp only [List.length_cons] at hr
        omega
  · intro x l h
    rw [pushBounded_eq_cons, if_pos (le_of_eq h.symm)]

/-- Witness for C5 at a concrete state and a full stack. -/
theorem stacks_bounded_witness :
    ((applyOp initHistory .fire).undoStack.length ≤ MAX_STACK_SIZE
      ∧ (applyOp initHistory .fire).redoStack.length ≤ MAX_STACK_SIZE)
    ∧ pushBounded DEFAULT_SETTINGS (List.replicate 50 DEFAULT_SETTINGS)
        = DEFAULT_SETTINGS :: (List.replicate 50 DEFAULT_SETTINGS).dropLast :=
  ⟨stacks_bounded.1 initHistory .fire (by decide) (by decide),
   stacks_bounded.2 DEFAULT_SETTINGS (List.replicate 50 DEFAULT_SETTINGS) (by simp [MAX_STACK_SIZE])⟩

/-! ## Lemmas about file ingestion -/

/-- Below the cap, a run of valid decodable files is stored in full and
emits no notice. -/
theorem addFilesGo_under_cap (files : List UFile) (s : UploadState)
    (hv : ∀ f ∈ files, validExt f.name = true ∧ f.decodeOk = true)
    (hc : s.images.length + files.length ≤ MAX_FILES) :
    (addFilesGo s files).images.length = s.images.length + files.length
    ∧ (addFilesGo s files).toasts = s.toasts := by
  induction files generalizing s with
  | nil => simp [addFilesGo]
  | cons f rest ih =>
    obtain ⟨hvf, hok⟩ := hv f (by simp)
    simp only [List.length_cons] at hc
    have hcap : ¬ MAX_FILES ≤ s.images.length := by
      unfold MAX_FILES at *
      omega
    simp only [addFilesGo, hvf, hok, not_true_eq_false, if_false, if_true,
      if_neg hcap]
    have hrec := ih
      { s with
        images := s.images ++ [⟨s.nextId, f.name, s.nextId⟩]
        nextId := s.nextId + 1 }
      (fun g hg => hv g (by simp [hg]))
      (by simp; omega)
    refine ⟨?_, hrec.2⟩
    rw [hrec.1]
    simp only [List.length_append, List.length_cons, List.length_nil]
    omega

/-- Processing a concatenation splits at the boundary as long as the first
part stays below the cap (so the loop never hits the `break`). -/
theorem addFilesGo_append (l1 l2 : List UFile) (s : UploadState)
    (hv : ∀ f ∈ l1, validExt f.name = true ∧ f.decodeOk = true)
    (hc : s.images.length + l1.length ≤ MAX_FILES) :
    addFilesGo s (l1 ++ l2) = addFilesGo (addFilesGo s l1) l2 := by
  induction l1 generalizing s with
  | nil => simp [addFilesGo]
  | cons f rest ih =>
    obtain ⟨hvf, hok⟩ := hv f (by simp)
    simp only [List.length_cons] at hc
    have hcap : ¬ MAX_FILES ≤ s.images.length := by
      unfold MAX_FILES at *
      omega
    simp only [List.cons_append, addFilesGo, hvf, hok, not_true_eq_false,
      if_false, if_true, if_neg hcap]
    exact ih _ (fun g hg => hv g (by simp [hg])) (by simp; omega)

/-! ## Claim C4 — the 100-file hard cap -/

/-- A valid, decodable sample file. -/
def pngFile : UFile := ⟨"a.png", true⟩

/-- C4: once the stored-record count has reached the cap, an ingestion call
over (remaining) valid files stores nothing, emits the aggregate cap notice
exactly once, and stops; in particular, adding 101 valid files to the empty
store yields exactly 100 records and the single aggregate notice. -/
theorem ingestion_cap :
    (∀ (s : UploadState) (f : UFile) (files : List UFile),
        validExt f.name = true → MAX_FILES ≤ s.images.length →
        addFiles s (f :: files) = { s with toasts := s.toasts ++ [capMsg] })
    ∧ (addFiles initUpload (List.replicate 101 pngFile)).images.length = 100
    ∧ (addFiles initUpload (List.replicate 101 pngFile)).toasts = [capMsg] := by
  have hstep : ∀ (s : UploadState) (f : UFile) (files : List UFile),
      validExt f.name = true → MAX_FILES ≤ s.images.length →
      addFiles s (f :: files) = { s with toasts := s.toasts ++ [capMsg] } := by
    intro s f files hvf hcap
    simp [addFiles, addFilesGo, hvf, hcap]
  have hv : ∀ f ∈ List.replicate 100 pngFile,
      validExt f.name = true ∧ f.decodeOk = true := by
    intro f hf
    rw [List.eq_of_mem_replicate hf]
    exact ⟨by decide, rfl⟩
  have h100 := addFilesGo_under_cap (List.replicate 100 pngFile) initUpload hv
    (by simp [initUpload, MAX_FILES])
  have hsplit : addFiles initUpload (List.replicate 101 pngFile)
      = addFilesGo (addFilesGo initUpload (List.replicate 100 pngFile))
          [pngFile] := by
    show addFilesGo initUpload (List.replicate 101 pngFile) = _
    rw [show (101 : ℕ) = 100 + 1 from rfl, List.replicate_succ']
    exact addFilesGo_append _ _ _ hv (by simp [initUpload, MAX_FILES])
  have hlast : addFilesGo (addFilesGo initUpload (List.replicate 100 pngFile))
      [pngFile]
      = { (addFilesGo initUpload (List.replicate 100 pngFile)) with
          toasts := (addFilesGo initUpload
            (List.replicate 100 pngFile)).toasts ++ [capMsg] } :=
    hstep _ pngFile [] (by decide)
      (by rw [h100.1]; simp [initUpload, MAX_FILES])
  refine ⟨hstep, ?_, ?_⟩
  · rw [hsplit, hlast]
    dsimp only
    rw [h100.1]
    simp [initUpload]
  · rw [hsplit, hlast]
    dsimp only
    rw [h100.2]
    simp [initUpload]

/-- Witness for the cap step of C4 at a concrete full store. -/
theorem ingestion_cap_witness :
    addFiles
        { initUpload with images := List.replicate 100 ⟨0, "a.png", 0⟩ }
        (pngFile :: [])
      = { ({ initUpload with images := List.replicate 100 ⟨0, "a.png", 0⟩ } : UploadState) with
          toasts := ({ initUpload with
            images := List.replicate 100 ⟨0, "a.png", 0⟩ } : UploadState).toasts ++ [capMsg] } :=
  ingestion_cap.1 { initUpload with images := List.replicate 100 ⟨0, "a.png", 0⟩ }
    pngFile [] (by decide) (by simp [initUpload, MAX_FILES])

/-! ## Lemmas about positional list surgery (for `removeImage`) -/

/-- `findIdx?` at a split whose left part has no match and whose split
element matches. -/
theorem findIdx?_split_aux {α} (p : α → Bool) (l1 : List α) (a : α)
    (l2 : List α) (h1 : ∀ x ∈ l1, p x = false) (ha : p a = true) :
    ∀ i, List.findIdx? p (l1 ++ a :: l2) i = some (i + l1.length) := by
  induction l1 with
  | nil =>
    intro i
    simp [List.findIdx?_cons, ha]
  | cons b t ih =>
    intro i
    have hb := h1 b (by simp)
    rw [List.cons_append, List.findIdx?_cons, if_neg (by simp [hb]),
      ih (fun x hx => h1 x (by simp [hx])) (i + 1)]
    congr 1
    simp only [List.length_cons]
    omega

/-- Erasing at the split index removes exactly the split element. -/
theorem eraseIdx_split {α} (l1 : List α) (a : α) (l2 : List α) :
    (l1 ++ a :: l2).eraseIdx l1.length = l1 ++ l2 := by
  induction l1 with
  | nil => rfl
  | cons b t ih => simpa using ih

/-- Indexing at the split index yields the split element. -/
theorem get?_split {α} (l1 : List α) (a : α) (l2 : List α) :
    (l1 ++ a :: l2).get? l1.length = some a := by
  induction l1 with
  | nil => rfl
  | cons b t ih => simpa using ih

/-! ## Claim C9 — removal releases the preview handle and the face cache -/

/-- C9: when `id` is present (the store splits at its first occurrence),
`removeImage` removes exactly that record keeping the order of the rest,
revokes exactly its preview handle, and deletes its face-cache entry so a
subsequent `getCachedFaces` returns none; when `id` is absent, the store is
left untouched. -/
theorem remove_releases_and_uncaches :
    (∀ (s : UploadState) (l1 l2 : List ImageRec) (r : ImageRec),
        s.images = l1 ++ r :: l2 →
        (∀ q ∈ l1, q.id ≠ r.id) →
        (removeImage s r.id).images = l1 ++ l2
        ∧ (removeImage s r.id).revoked = s.revoked ++ [r.preview]
        ∧ getCachedFaces (removeImage s r.id) r.id = none)
    ∧ (∀ (s : UploadState) (id : ℕ),
        (∀ q ∈ s.images, q.id ≠ id) → removeImage s id = s) := by
  constructor
  · intro s l1 l2 r hs hl1
    have hfind : s.images.findIdx? (fun q => q.id == r.id) = some l1.length := by
      rw [hs]
      have := findIdx?_split_aux (fun q : ImageRec => q.id == r.id) l1 r l2
        (fun x hx => by simp [hl1 x hx]) (by simp) 0
      simpa using this
    refine ⟨?_, ?_, ?_⟩
    · simp only [removeImage, hfind]
      rw [hs]
      exact eraseIdx_split l1 r l2
    · simp only [removeImage, hfind]
      rw [hs, get?_split]
      rfl
    · simp only [removeImage, hfind, getCachedFaces]
      rw [List.find?_eq_none.mpr]
      · rfl
      · intro e he
        have hmem := List.mem_filter.mp he
        simp only [bne_iff_ne, ne_eq] at hmem
        simp [hmem.2]
  · intro s id h
    have hfind : s.images.findIdx? (fun q => q.id == id) = none := by
      rw [List.findIdx?_eq_none_iff]
      intro x hx
      simp [h x hx]
    simp [removeImage, hfind]

/-- A sample face-detection payload. -/
def sampleFaces : FaceData := ⟨[(0, 0, 1, 1)], []⟩

/-- Witness for C9 at a concrete two-image store with a cached entry. -/
theorem remove_releases_and_uncaches_witness :
    ((removeImage
        { images := [⟨1, "a.png", 1⟩, ⟨2, "b.png", 2⟩]
          faceCache := [(1, sampleFaces)]
          revoked := []
          toasts := []
          nextId := 3 } 1).images = [] ++ [⟨2, "b.png", 2⟩]
      ∧ (removeImage
        { images := [⟨1, "a.png", 1⟩, ⟨2, "b.png", 2⟩]
          faceCache := [(1, sampleFaces)]
          revoked := []
          toasts := []
          nextId := 3 } 1).revoked = [] ++ [1]
      ∧ getCachedFaces (removeImage
        { images := [⟨1, "a.png", 1⟩, ⟨2, "b.png", 2⟩]
          faceCache := [(1, sampleFaces)]
          revoked := []
          toasts := []
          nextId := 3 } 1) 1 = none)
    ∧ removeImage
        { images := [⟨2, "b.png", 2⟩]
          faceCache := []
          revoked := []
          toasts := []
          nextId := 3 } 7
      = { images := [⟨2, "b.png", 2⟩]
          faceCache := []
          revoked := []
          toasts := []
          nextId := 3 } :=
  ⟨remove_releases_and_uncaches.1
      { images := [⟨1, "a.png", 1⟩, ⟨2, "b.png", 2⟩]
        faceCache := [(1, sampleFaces)]
        revoked := []
        toasts := []
        nextId := 3 }
      [] [⟨2, "b.png", 2⟩] ⟨1, "a.png", 1⟩ rfl (by simp),
   remove_releases_and_uncaches.2
      { images := [⟨2, "b.png", 2⟩]
        faceCache := []
        revoked := []
        toasts := []
        nextId := 3 } 7 (by simp)⟩

/-! ## Lemmas about drag sessions -/

/-- The move-phase fold never emits notifications, whatever the
accumulator. -/
theorem movePhase_foldl_snd (sf : Surface) (snap : Bool) (start : ℚ × ℚ)
    (moves : List (ℚ × ℚ)) :
    ∀ acc : (ℚ × ℚ) × List (ℚ × ℚ),
      (moves.foldl
        (fun acc d =>
          let st := onMouseMove sf snap start d
          (st.1, acc.2 ++ st.2)) acc).2 = acc.2 := by
  induction moves with
  | nil => intro acc; rfl
  | cons m ms ih =>
    intro acc
    rw [List.foldl_cons, ih]
    simp [onMouseMove]

/-- No notification is emitted during the move phase of a drag session. -/
theorem movePhase_notifs (sf : Surface) (snap : Bool) (start : ℚ × ℚ)
    (moves : List (ℚ × ℚ)) : (movePhase sf snap start moves).2 = [] :=
  movePhase_foldl_snd sf snap start moves (start, [])

/-- Each `mousemove` recomputes the handle position from the session-start
offset, so after a non-empty move phase the handle sits where the last move
put it. -/
theorem movePhase_fst (sf : Surface) (snap : Bool) (start : ℚ × ℚ) :
    ∀ (moves : List (ℚ × ℚ)) (acc : (ℚ × ℚ) × List (ℚ × ℚ)) (m : ℚ × ℚ),
      moves.getLast? = some m →
      (moves.foldl
        (fun acc d =>
          let st := onMouseMove sf snap start d
          (st.1, acc.2 ++ st.2)) acc).1 = (onMouseMove sf snap start m).1 := by
  intro moves
  induction moves with
  | nil => intro acc m hm; cases hm
  | cons d ds ih =>
    intro acc m hm
    cases ds with
    | nil =>
      simp only [List.getLast?_singleton, Option.some.injEq] at hm
      subst hm
      rfl
    | cons e es =>
      rw [List.getLast?_cons_cons] at hm
      rw [List.foldl_cons]
      exact ih _ m hm

/-! ## Claim C6 — one notification per drag session, at pointer-up -/

/-- C6: in an enabled drag session, no position-change notification is
emitted by any `mousemove`; the session emits exactly one notification, and
it is the `mouseup` notification built from the handle's final position. -/
theorem drag_notifies_once (sf : Surface) (snap : Bool) (start : ℚ × ℚ)
    (moves : List (ℚ × ℚ)) :
    (movePhase sf snap start moves).2 = []
    ∧ (dragSession sf true snap start moves).2
        = onMouseUp sf (movePhase sf snap start moves).1
    ∧ (dragSession sf true snap start moves).2.length = 1 := by
  have h1 := movePhase_notifs sf snap start moves
  refine ⟨h1, ?_, ?_⟩
  · show ((movePhase sf snap start moves).2
      ++ onMouseUp sf (movePhase sf snap start moves).1) = _
    rw [h1]
    rfl
  · show ((movePhase sf snap start moves).2
      ++ onMouseUp sf (movePhase sf snap start moves).1).length = 1
    rw [h1]
    rfl

/-- Witness for C6 at a concrete three-move drag session. -/
theorem drag_notifies_once_witness :
    (movePhase ⟨100, 100, 10, 10⟩ false (0, 0) [(5, 5), (9, 2), (30, 40)]).2 = []
    ∧ (dragSession ⟨100, 100, 10, 10⟩ true false (0, 0)
        [(5, 5), (9, 2), (30, 40)]).2
        = onMouseUp ⟨100, 100, 10, 10⟩
            (movePhase ⟨100, 100, 10, 10⟩ false (0, 0) [(5, 5), (9, 2), (30, 40)]).1
    ∧ (dragSession ⟨100, 100, 10, 10⟩ true false (0, 0)
        [(5, 5), (9, 2), (30, 40)]).2.length = 1 :=
  drag_notifies_once ⟨100, 100, 10, 10⟩ false (0, 0) [(5, 5), (9, 2), (30, 40)]

/-! ## Lemmas about snapping and clamping -/

/-- `Math.round` of a value in `[0, 10]` is an integer in `[0, 10]`. -/
theorem jsRound_mem_of_mem {x : ℚ} (h0 : 0 ≤ x) (h10 : x ≤ 10) :
    0 ≤ jsRound x ∧ jsRound x ≤ 10 := by
  unfold jsRound
  constructor
  · exact Int.le_floor.mpr (by push_cast; linarith)
  · have h : ⌊x + 1/2⌋ < 11 := Int.floor_lt.mpr (by push_cast; linarith)
    omega

/-- The low clamp bound. -/
theorem clampQ_nonneg (hi x : ℚ) : 0 ≤ clampQ 0 hi x := le_max_left 0 _

/-- A clamp to `[0, hi]` with `hi ≤ w` stays below `w`. -/
theorem clampQ_le_of_le {hi w : ℚ} (h0 : 0 ≤ w) (hh : hi ≤ w) (x : ℚ) :
    clampQ 0 hi x ≤ w :=
  max_le h0 (le_trans (min_le_right x hi) hh)

/-- Clamping a value already inside the interval changes nothing. -/
theorem clampQ_of_mem {lo hi x : ℚ} (h1 : lo ≤ x) (h2 : x ≤ hi) :
    clampQ lo hi x = x := by
  unfold clampQ
  rw [min_eq_left h2, max_eq_right h1]

/-- With snap-to-grid on, the `mouseup` notification built from a snapped
`mousemove` position has both coordinates equal to `k/10` for integers
`k ∈ [0, 10]`. -/
theorem snap_move_emits_grid (sf : Surface) (hx : 0 < sf.width)
    (hy : 0 < sf.height) (hw : 0 ≤ sf.handleW) (hh : 0 ≤ sf.handleH)
    (start d : ℚ × ℚ) :
    ∃ kx ky : ℤ, 0 ≤ kx ∧ kx ≤ 10 ∧ 0 ≤ ky ∧ ky ≤ 10 ∧
      onMouseUp sf (onMouseMove sf true start d).1
        = [((kx : ℚ) / 10, (ky : ℚ) / 10)] := by
  have grid : ∀ (w hdl pos : ℚ), 0 < w → 0 ≤ hdl →
      ∃ k : ℤ, 0 ≤ k ∧ k ≤ 10 ∧
        clampQ 0 1 ((jsRound (clampQ 0 (w - hdl) pos / (w / 10)) : ℚ)
          * (w / 10) / w) = (k : ℚ) / 10 := by
    intro w hdl pos hwpos hhdl
    set c := clampQ 0 (w - hdl) pos with hc
    have hc0 : 0 ≤ c := clampQ_nonneg _ _
    have hcw : c ≤ w := clampQ_le_of_le (le_of_lt hwpos) (by linarith) pos
    have hq0 : (0 : ℚ) < w / 10 := by positivity
    have ht0 : 0 ≤ c / (w / 10) := by positivity
    have ht10 : c / (w / 10) ≤ 10 := by
      rw [div_le_iff₀ hq0]
      linarith
    obtain ⟨hk0, hk10⟩ := jsRound_mem_of_mem ht0 ht10
    refine ⟨jsRound (c / (w / 10)), hk0, hk10, ?_⟩
    have hsimp : (jsRound (c / (w / 10)) : ℚ) * (w / 10) / w
        = (jsRound (c / (w / 10)) : ℚ) / 10 := by
      field_simp
      ring
    rw [hsimp]
    refine clampQ_of_mem ?_ ?_
    · positivity
    · rw [div_le_one (by norm_num : (0 : ℚ) < 10)]
      exact_mod_cast hk10
  obtain ⟨kx, hkx0, hkx10, hkx⟩ :=
    grid sf.width sf.handleW (start.1 + d.1) hx hw
  obtain ⟨ky, hky0, hky10, hky⟩ :=
    grid sf.height sf.handleH (start.2 + d.2) hy hh
  refine ⟨kx, ky, hkx0, hkx10, hky0, hky10, ?_⟩
  simp only [onMouseMove, onMouseUp, if_true]
  rw [hkx, hky]

/-- Clamping `j/10` to `[0,1]` is dividing the clamped integer by ten. -/
theorem clamp01_int_div_ten (j : ℤ) :
    clampQ 0 1 ((j : ℚ) / 10) = ((max 0 (min j 10) : ℤ) : ℚ) / 10 := by
  unfold clampQ
  rcases le_total (j : ℤ) 10 with hj | hj
  · rw [min_eq_left (by
        rw [div_le_one (by norm_num : (0:ℚ) < 10)]
        exact_mod_cast hj),
      min_eq_left hj]
    rcases le_total (0 : ℤ) j with h0 | h0
    · have hq : (0 : ℚ) ≤ (j : ℚ) / 10 :=
        div_nonneg (by exact_mod_cast h0) (by norm_num)
      rw [max_eq_right hq, max_eq_right h0]
    · have hq : ((j : ℚ) / 10) ≤ 0 :=
        div_nonpos_of_nonpos_of_nonneg (by exact_mod_cast h0) (by norm_num)
      rw [max_eq_left hq, max_eq_left h0]
      norm_num
  · have h1 : (1 : ℚ) ≤ (j : ℚ) / 10 := by
      rw [le_div_iff₀ (by norm_num : (0:ℚ) < 10)]
      have : (10 : ℚ) ≤ (j : ℚ) := by exact_mod_cast hj
      linarith
    rw [min_eq_right h1, min_eq_right hj]
    rw [max_eq_right (by norm_num : (0:ℚ) ≤ 1),
      max_eq_right (by norm_num : (0:ℤ) ≤ 10)]
    norm_num

/-! ## Claim C7 — snap-to-grid rounds to tenths -/

/-- C7: with snap-to-grid enabled, every position emitted by a placement
action — a drag release (with at least one move) or a click-to-place — has
both coordinates equal to an integer multiple of one tenth inside `[0,1]`;
in particular a drag released at the normalized position `(0.37, 0.81)` of
a 100×100 surface notifies `(0.4, 0.8)`. -/
theorem snap_to_grid_placement :
    (∀ (sf : Surface), 0 < sf.width → 0 < sf.height →
      0 ≤ sf.handleW → 0 ≤ sf.handleH →
      ∀ (start : ℚ × ℚ) (moves : List (ℚ × ℚ)) (m : ℚ × ℚ),
        moves.getLast? = some m →
        ∃ kx ky : ℤ, 0 ≤ kx ∧ kx ≤ 10 ∧ 0 ≤ ky ∧ ky ≤ 10 ∧
          (dragSession sf true true start moves).2
            = [((kx : ℚ) / 10, (ky : ℚ) / 10)])
    ∧ (∀ (sf : Surface) (click : ℚ × ℚ),
        ∃ kx ky : ℤ, 0 ≤ kx ∧ kx ≤ 10 ∧ 0 ≤ ky ∧ ky ≤ 10 ∧
          overlayClick sf true true false click
            = [((kx : ℚ) / 10, (ky : ℚ) / 10)])
    ∧ dragSession ⟨100, 100, 10, 10⟩ true true (0, 0) [(37, 81)]
        = ((40, 80), [(2/5, 4/5)]) := by
  refine ⟨?_, ?_, ?_⟩
  · intro sf hx hy hw hh start moves m hm
    obtain ⟨kx, ky, h1, h2, h3, h4, hemit⟩ :=
      snap_move_emits_grid sf hx hy hw hh start m
    refine ⟨kx, ky, h1, h2, h3, h4, ?_⟩
    have hd : (dragSession sf true true start moves).2
        = (movePhase sf true start moves).2
          ++ onMouseUp sf (movePhase sf true start moves).1 := rfl
    rw [hd, movePhase_notifs, List.nil_append,
      show (movePhase sf true start moves).1 = (onMouseMove sf true start m).1
        from movePhase_fst sf true start moves (start, []) m hm,
      hemit]
  · intro sf click
    refine ⟨max 0 (min (jsRound (click.1 / sf.width * 10)) 10),
      max 0 (min (jsRound (click.2 / sf.height * 10)) 10),
      le_max_left _ _, max_le (by norm_num) (min_le_right _ _),
      le_max_left _ _, max_le (by norm_num) (min_le_right _ _), ?_⟩
    show [(clampQ 0 1 ((jsRound (click.1 / sf.width * 10) : ℚ) / 10),
           clampQ 0 1 ((jsRound (click.2 / sf.height * 10) : ℚ) / 10))] = _
    rw [clamp01_int_div_ten, clamp01_int_div_ten]
  · norm_num [dragSession, movePhase, onMouseMove, onMouseUp, clampQ, jsRound]

/-- Witness for C7 at a concrete surface, drag and click. -/
theorem snap_to_grid_placement_witness :
    (∃ kx ky : ℤ, 0 ≤ kx ∧ kx ≤ 10 ∧ 0 ≤ ky ∧ ky ≤ 10 ∧
      (dragSession ⟨100, 100, 10, 10⟩ true true (0, 0) [(37, 81)]).2
        = [((kx : ℚ) / 10, (ky : ℚ) / 10)])
    ∧ (∃ kx ky : ℤ, 0 ≤ kx ∧ kx ≤ 10 ∧ 0 ≤ ky ∧ ky ≤ 10 ∧
      overlayClick ⟨100, 100, 10, 10⟩ true true false (37, 81)
        = [((kx : ℚ) / 10, (ky : ℚ) / 10)]) :=
  ⟨snap_to_grid_placement.1 ⟨100, 100, 10, 10⟩ (by norm_num) (by norm_num)
      (by norm_num) (by norm_num) (0, 0) [(37, 81)] (37, 81) rfl,
   snap_to_grid_placement.2.1 ⟨100, 100, 10, 10⟩ (37, 81)⟩

/-! ## Lemmas about the chunk decomposition -/

/-- The chunk loop, viewed one iteration at a time. -/
theorem chunksOf4_cons_eq {α} (l : List α) (h : l ≠ []) :
    chunksOf4 l = l.take 4 :: chunksOf4 (l.drop 4) := by
  have hn : 1 ≤ l.length := List.length_pos.mpr h
  unfold chunksOf4
  rw [List.length_drop]
  have harith : (l.length + 3) / 4 = (l.length - 4 + 3) / 4 + 1 := by omega
  rw [harith, List.range_succ_eq_map, List.map_cons, List.map_map]
  refine congrArg₂ _ ?_ ?_
  · simp
  · apply List.map_congr_left
    intro i _
    show (l.drop (Nat.succ i * 4)).take 4 = ((l.drop 4).drop (i * 4)).take 4
    rw [List.drop_drop]
    have h4 : Nat.succ i * 4 = 4 + i * 4 := by omega
    rw [h4]

/-- The chunks of a batch reassemble to the batch. -/
theorem chunksOf4_flatten {α} (l : List α) : (chunksOf4 l).flatten = l := by
  generalize hn : l.length = n
  induction n using Nat.strong_induction_on generalizing l with
  | _ n ih =>
    cases l with
    | nil => simp [chunksOf4]
    | cons a t =>
      rw [chunksOf4_cons_eq _ (by simp), List.flatten_cons,
        ih ((a :: t).drop 4).length (by
          subst hn
          simp only [List.length_drop, List.length_cons]
          omega) _ rfl]
      exact List.take_append_drop 4 (a :: t)

/-! ## Lemmas about the zip-back loop and the chunk driver -/

/-- One step of the zip-back fold. -/
theorem chunkSettle_cons (total : ℕ) (acc : List ProcessedResult × ℕ × List ℤ)
    (x : BatchInput) (c : List BatchInput) :
    chunkSettle total acc (x :: c)
      = chunkSettle total
          (match resultOf x with
           | some r =>
             (acc.1 ++ [r], acc.2.1 + 1, acc.2.2 ++ [pct total (acc.2.1 + 1)])
           | none => (acc.1, acc.2.1 + 1, acc.2.2 ++ [pct total (acc.2.1 + 1)]))
          c := by
  cases hr : resultOf x <;> simp [chunkSettle, hr]

/-- Settling one chunk appends its surviving results in order, advances the
completed count by the chunk length, and reports one progress value per
image of the chunk. -/
theorem chunkSettle_spec (total : ℕ) (c : List BatchInput) :
    ∀ res comp tr,
      chunkSettle total (res, comp, tr) c
        = (res ++ c.filterMap resultOf, comp + c.length,
           tr ++ (List.range c.length).map (fun i => pct total (comp + i + 1))) := by
  induction c with
  | nil =>
    intro res comp tr
    simp [chunkSettle]
  | cons x c ih =>
    intro res comp tr
    rw [chunkSettle_cons]
    cases hr : resultOf x with
    | some r =>
      simp only [hr]
      rw [ih]
      simp only [List.length_cons]
      refine congrArg₂ _ ?_ (congrArg₂ _ (by omega) ?_)
      · rw [List.filterMap_cons, hr, List.append_assoc]
        rfl
      · rw [List.range_succ_eq_map, List.map_cons,
          List.map_map, List.append_assoc]
        refine congrArg _ ?_
        rw [show pct total (comp + 0 + 1) = pct total (comp + 1) from by
          norm_num]
        refine congrArg _ (List.map_congr_left ?_)
        intro i _
        simp only [Function.comp_apply]
        exact congrArg (pct total) (by omega)
    | none =>
      simp only [hr]
      rw [ih]
      simp only [List.length_cons]
      refine congrArg₂ _ ?_ (congrArg₂ _ (by omega) ?_)
      · rw [List.filterMap_cons, hr]
      · rw [List.range_succ_eq_map, List.map_cons,
          List.map_map, List.append_assoc]
        refine congrArg _ ?_
        rw [show pct total (comp + 0 + 1) = pct total (comp + 1) from by
          norm_num]
        refine congrArg _ (List.map_congr_left ?_)
        intro i _
        simp only [Function.comp_apply]
        exact congrArg (pct total) (by omega)

/-- A run over chunks with no rejected promise surfaces every surviving
result in order and reports one progress value per image. -/
theorem processChunksGo_ok (total : ℕ) (cs : List (List BatchInput)) :
    ∀ acc : List ProcessedResult × ℕ × List ℤ,
      (∀ c ∈ cs, ∀ i ∈ c, i.2.isTransportErr = false) →
      processChunksGo total acc cs
        = (.ok (acc.1 ++ cs.flatten.filterMap resultOf),
           acc.2.2 ++ (List.range cs.flatten.length).map
             (fun i => pct total (acc.2.1 + i + 1))) := by
  induction cs with
  | nil =>
    intro acc h
    simp [processChunksGo]
  | cons c cs ih =>
    intro acc h
    have hc : c.find? (fun i => i.2.isTransportErr) = none := by
      rw [List.find?_eq_none]
      intro x hx
      simp [h c (by simp) x hx]
    obtain ⟨res, comp, tr⟩ := acc
    simp only [processChunksGo, hc]
    rw [chunkSettle_spec, ih _ (fun c' hc' => h c' (by simp [hc']))]
    simp only [List.flatten_cons, List.length_append]
    refine congrArg₂ _ ?_ ?_
    · rw [List.filterMap_append, List.append_assoc]
    · rw [List.range_add, List.map_append, List.map_map, List.append_assoc]
      refine congrArg _ (congrArg₂ _ rfl ?_)
      apply List.map_congr_left
      intro i _
      simp only [Function.comp_apply]
      exact congrArg (pct total) (by omega)

/-- Whatever happens (including a mid-run abort), the reported progress
trace is an initial run of the per-image progress values. -/
theorem processChunksGo_trace (total : ℕ) (cs : List (List BatchInput)) :
    ∀ acc : List ProcessedResult × ℕ × List ℤ,
      ∃ m : ℕ, (processChunksGo total acc cs).2
        = acc.2.2 ++ (List.range m).map (fun i => pct total (acc.2.1 + i + 1)) := by
  induction cs with
  | nil =>
    intro acc
    exact ⟨0, by simp [processChunksGo]⟩
  | cons c cs ih =>
    intro acc
    cases hc : c.find? (fun i => i.2.isTransportErr) with
    | some i =>
      exact ⟨0, by simp [processChunksGo, hc]⟩
    | none =>
      obtain ⟨res, comp, tr⟩ := acc
      obtain ⟨m, hm⟩ := ih (chunkSettle total (res, comp, tr) c)
      refine ⟨c.length + m, ?_⟩
      simp only [processChunksGo, hc]
      rw [hm, chunkSettle_spec]
      simp only
      rw [List.range_add, List.map_append, List.map_map, List.append_assoc]
      refine congrArg _ (congrArg₂ _ rfl ?_)
      apply List.map_congr_left
      intro i _
      simp only [Function.comp_apply]
      exact congrArg (pct total) (by omega)

/-! ## Lemmas about the progress formula -/

/-- Reported progress never exceeds 100. -/
theorem pct_le_100 (total k : ℕ) : pct total k ≤ 100 := min_le_left _ _

/-- Reported progress is monotone in the completed count. -/
theorem pct_mono (total : ℕ) {k k' : ℕ} (h : k ≤ k') :
    pct total k ≤ pct total k' := by
  unfold pct jsRound
  refine min_le_min le_rfl (Int.floor_le_floor ?_)
  have hk : (k : ℚ) ≤ (k' : ℚ) := by exact_mod_cast h
  rcases Nat.eq_zero_or_pos total with h0 | h0
  · simp [h0]
  · have ht : (0 : ℚ) < (total : ℚ) := by exact_mod_cast h0
    have hdiv : (k : ℚ) * 100 / total ≤ (k' : ℚ) * 100 / total := by
      gcongr
    linarith

/-- A progress trace of consecutive values is monotonically
non-decreasing. -/
theorem trace_chain (total m base : ℕ) :
    ((List.range m).map (fun i => pct total (base + i + 1))).Chain' (· ≤ ·) := by
  rw [List.chain'_map]
  cases m with
  | zero => simp
  | succ m' =>
    rw [List.chain'_range_succ]
    intro i _
    exact pct_mono total (by omega)

/-! ## Concrete seven-image batches -/

/-- A sample image record. -/
def sampleImg (i : ℕ) : ImageRec := ⟨i, "a.png", i⟩

/-- A successful remote outcome. -/
def okOut : Outcome := .success "r" "z" 1

/-- Seven images whose remote calls all succeed. -/
def sevenOk : List BatchInput :=
  [(sampleImg 1, okOut), (sampleImg 2, okOut), (sampleImg 3, okOut),
   (sampleImg 4, okOut), (sampleImg 5, okOut), (sampleImg 6, okOut),
   (sampleImg 7, okOut)]

/-- Seven images where the third returns a `success: false` envelope. -/
def sevenApiFail : List BatchInput :=
  [(sampleImg 1, okOut), (sampleImg 2, okOut), (sampleImg 3, .apiFail),
   (sampleImg 4, okOut), (sampleImg 5, okOut), (sampleImg 6, okOut),
   (sampleImg 7, okOut)]

/-- Seven images where the third image's request rejects at the
transport. -/
def sevenTransportFail : List BatchInput :=
  [(sampleImg 1, okOut), (sampleImg 2, okOut),
   (sampleImg 3, .transportErr "network down"),
   (sampleImg 4, okOut), (sampleImg 5, okOut), (sampleImg 6, okOut),
   (sampleImg 7, okOut)]

/-! ## Claim C8 — progress reporting -/

/-- C8: in every batch run the reported progress sequence is monotonically
non-decreasing and never exceeds 100; in a run with no rejected promise one
value `min 100 (round(k·100/total))` is reported after each completed
image; and the seven-image all-success run takes 2 chunks of size 4 and
reports `[14, 29, 43, 57, 71, 86, 100]`, ending at 100. -/
theorem batch_progress :
    (∀ inputs : List BatchInput,
        (processAll inputs).2.Chain' (· ≤ ·)
        ∧ ∀ p ∈ (processAll inputs).2, p ≤ 100)
    ∧ (∀ inputs : List BatchInput,
        (∀ i ∈ inputs, i.2.isTransportErr = false) →
        (processAll inputs).2
          = (List.range inputs.length).map (fun i => pct inputs.length (i + 1)))
    ∧ (numChunks sevenOk = 2
        ∧ (processAll sevenOk).2 = [14, 29, 43, 57, 71, 86, 100]) := by
  have hok : ∀ inputs : List BatchInput,
      (∀ i ∈ inputs, i.2.isTransportErr = false) →
      (processAll inputs).2
        = (List.range inputs.length).map (fun i => pct inputs.length (i + 1)) := by
    intro inputs hin
    have h := processChunksGo_ok inputs.length (chunksOf4 inputs) ([], 0, [])
      (fun c hc i hi =>
        hin i (by
          rw [← chunksOf4_flatten inputs]
          exact List.mem_flatten.mpr ⟨c, hc, hi⟩))
    show (processChunksGo inputs.length ([], 0, []) (chunksOf4 inputs)).2 = _
    rw [h]
    simp only [List.nil_append, chunksOf4_flatten]
    apply List.map_congr_left
    intro i _
    exact congrArg (pct inputs.length) (by omega)
  refine ⟨?_, hok, ?_, ?_⟩
  · intro inputs
    obtain ⟨m, hm⟩ :=
      processChunksGo_trace inputs.length (chunksOf4 inputs) ([], 0, [])
    have hm' : (processAll inputs).2
        = (List.range m).map (fun i => pct inputs.length (0 + i + 1)) := by
      show (processChunksGo inputs.length ([], 0, []) (chunksOf4 inputs)).2 = _
      rw [hm]
      rfl
    constructor
    · rw [hm']
      exact trace_chain inputs.length m 0
    · intro p hp
      rw [hm'] at hp
      obtain ⟨i, _, rfl⟩ := List.mem_map.mp hp
      exact pct_le_100 _ _
  · rfl
  · rw [hok sevenOk (by decide)]
    norm_num [pct, jsRound, List.range_succ, sevenOk]

/-- Witness for C8 at the concrete all-success seven-image run. -/
theorem batch_progress_witness :
    (processAll sevenOk).2
      = (List.range sevenOk.length).map (fun i => pct sevenOk.length (i + 1)) :=
  batch_progress.2.1 sevenOk (by decide)

/-! ## Claim C2 — per-image failure handling

The spec claims both `success: false` envelopes and transport errors are
skipped without aborting the batch.  The code only skips `success: false`
envelopes; a rejected promise makes the chunk's `Promise.all` reject, the
surrounding try/catch aborts the run, and no result list is surfaced. -/

/-- C2 counterexample: with a transport error on image 3 of 7, the batch
run aborts with the error; it does not produce any `ProcessedResult` list,
let alone one of length 6. -/
theorem batch_transport_cex :
    (processAll sevenTransportFail).1 = Except.error "network down"
    ∧ ∀ rs : List ProcessedResult,
        (processAll sevenTransportFail).1 ≠ Except.ok rs := by
  constructor
  · rfl
  · intro rs h
    rw [show (processAll sevenTransportFail).1 = Except.error "network down"
      from rfl] at h
    exact Except.noConfusion h

/-- C2 amended: a per-image `success: false` response is excluded from the
result list without aborting the batch and the surviving results appear in
input order (with image 3 of 7 failing this way the list has the other six,
in order); a per-image transport error instead aborts the whole run. -/
theorem batch_skips_api_failures :
    (∀ inputs : List BatchInput,
        (∀ i ∈ inputs, i.2.isTransportErr = false) →
        (processAll inputs).1 = Except.ok (inputs.filterMap resultOf))
    ∧ ((processAll sevenApiFail).1
          = Except.ok (sevenApiFail.filterMap resultOf)
        ∧ (sevenApiFail.filterMap resultOf).length = 6
        ∧ (sevenApiFail.filterMap resultOf).map (fun r => r.id)
            = [1, 2, 4, 5, 6, 7]) := by
  have hok : ∀ inputs : List BatchInput,
      (∀ i ∈ inputs, i.2.isTransportErr = false) →
      (processAll inputs).1 = Except.ok (inputs.filterMap resultOf) := by
    intro inputs hin
    have h := processChunksGo_ok inputs.length (chunksOf4 inputs) ([], 0, [])
      (fun c hc i hi =>
        hin i (by
          rw [← chunksOf4_flatten inputs]
          exact List.mem_flatten.mpr ⟨c, hc, hi⟩))
    show (processChunksGo inputs.length ([], 0, []) (chunksOf4 inputs)).1 = _
    rw [h]
    simp only [List.nil_append, chunksOf4_flatten]
  exact ⟨hok, hok sevenApiFail (by decide), rfl, rfl⟩

/-- Witness for the amended C2 at the concrete seven-image run with one
`success: false` response. -/
theorem batch_skips_api_failures_witness :
    (processAll sevenApiFail).1 = Except.ok (sevenApiFail.filterMap resultOf) :=
  batch_skips_api_failures.1 sevenApiFail (by decide)

end NinyMark
